import Mathlib

/-!
Verification development for the opencode-ace skillbook engine
(`src/python/skillbook_manager.py` and `src/python/ace_opencode/skillbook_ext.py`).

The Python code is shallowly embedded: pure functions become Lean functions,
stateful code (the JSON-backed skill collections) is modelled by explicit
state passing, fallible code returns `Option`/`Except`, and Python `float`
similarity scores are modelled exactly as rationals (`ℚ`).
-/

/-! ## Similarity matcher

`skillbook_manager.string_similarity` is
`SequenceMatcher(None, a.lower(), b.lower()).ratio()` from the Python
standard library `difflib`.  We embed `SequenceMatcher` for `isjunk=None`:
the junk set is empty.  The `autojunk` heuristic only changes behaviour when
the second sequence has at least 200 elements (it drops "popular" elements
from the index `b2j`); it is omitted here, so this model is exact for all
calls where `len(b) < 200`.
-/

/-- A matching block candidate: `find_longest_match`s running
`(besti, bestj, bestsize)`. -/
structure MatchBlock where
  bi : ℕ
  bj : ℕ
  size : ℕ
deriving Repr, DecidableEq

/-- The occurrence index `b2j` of `SequenceMatcher.__chain_b` (with
`isjunk=None` and ignoring `autojunk`, see above): the ascending list of
positions of character `c` in `b`. -/
def b2j (b : List Char) (c : Char) : List ℕ :=
  (List.range b.length).filter (fun j => b.getD j ' ' = c)

/-- Inner loop of `find_longest_match` over the occurrence list
`b2j[a[i]]`: builds `newj2len` from the previous row `j2len` and updates the
running best block.  `if j < blo: continue`, `if j >= bhi: break`,
`k = newj2len[j] = j2len.get(j-1, 0) + 1` (in Python `j-1` may be `-1`,
where the lookup misses; we guard `j = 0`), and the best block is replaced
only on a strictly larger `k`. -/
def scan_step_len (j2len : List (ℕ × ℕ)) (j : ℕ) : ℕ :=
  (if j = 0 then 0 else ((j2len.lookup (j - 1)).getD 0)) + 1

def innerScan (blo bhi i : ℕ) :
    List ℕ → List (ℕ × ℕ) → List (ℕ × ℕ) → MatchBlock → List (ℕ × ℕ) × MatchBlock
  | [], _, newRow, best => (newRow, best)
  | j :: js, j2len, newRow, best =>
    if j < blo then innerScan blo bhi i js j2len newRow best
    else if bhi ≤ j then (newRow, best)
    else
      innerScan blo bhi i js j2len ((j, scan_step_len j2len j) :: newRow)
        (if best.size < scan_step_len j2len j then
          MatchBlock.mk (i + 1 - scan_step_len j2len j) (j + 1 - scan_step_len j2len j)
            (scan_step_len j2len j)
        else best)

/-- Outer loop of `find_longest_match`: `for i in range(alo, ahi)`,
threading the row map (`j2len = newj2len`) and the best block. -/
def outerScan (a b : List Char) (blo bhi : ℕ) :
    List ℕ → List (ℕ × ℕ) → MatchBlock → MatchBlock
  | [], _, best => best
  | i :: is, j2len, best =>
    outerScan a b blo bhi is
      (innerScan blo bhi i (b2j b (a.getD i ' ')) j2len [] best).1
      (innerScan blo bhi i (b2j b (a.getD i ' ')) j2len [] best).2

/-- First extension loop of `find_longest_match`: extend the best block to
the left over equal (non-junk; the junk set is empty here) elements.  The
loop runs at most `bi` times, which we use as structural fuel. -/
def extendLeft (a b : List Char) (alo blo : ℕ) : ℕ → MatchBlock → MatchBlock
  | 0, best => best
  | fuel + 1, best =>
    if alo < best.bi ∧ blo < best.bj ∧
        a.getD (best.bi - 1) ' ' = b.getD (best.bj - 1) ' ' then
      extendLeft a b alo blo fuel (MatchBlock.mk (best.bi - 1) (best.bj - 1) (best.size + 1))
    else best

/-- Second extension loop of `find_longest_match`: extend the best block to
the right over equal elements.  The loop runs at most `ahi` times. -/
def extendRight (a b : List Char) (ahi bhi : ℕ) : ℕ → MatchBlock → MatchBlock
  | 0, best => best
  | fuel + 1, best =>
    if best.bi + best.size < ahi ∧ best.bj + best.size < bhi ∧
        a.getD (best.bi + best.size) ' ' = b.getD (best.bj + best.size) ' ' then
      extendRight a b ahi bhi fuel (MatchBlock.mk best.bi best.bj (best.size + 1))
    else best

/-- `SequenceMatcher.find_longest_match(alo, ahi, blo, bhi)` with an empty
junk set: the quadratic scan followed by the two non-junk extension loops
(the two junk extension loops never fire because `isjunk is None`). -/
def find_longest_match (a b : List Char) (alo ahi blo bhi : ℕ) : MatchBlock :=
  extendRight a b ahi bhi ahi
    (extendLeft a b alo blo
      (outerScan a b blo bhi (List.range' alo (ahi - alo)) [] (MatchBlock.mk alo blo 0)).bi
      (outerScan a b blo bhi (List.range' alo (ahi - alo)) [] (MatchBlock.mk alo blo 0)))

/-- Total size of all matching blocks of `get_matching_blocks` restricted to
the window `[alo,ahi) × [blo,bhi)`: the recursion of the block queue.  Only
the sum of sizes is needed for `ratio()` (the sort/merge of adjacent blocks
preserves it).  `fuel` dominates the recursion depth; every recursive call
strictly shrinks `(ahi - alo) + (bhi - blo)`. -/
def matchTotal (a b : List Char) : ℕ → ℕ → ℕ → ℕ → ℕ → ℕ
  | 0, _, _, _, _ => 0
  | fuel + 1, alo, ahi, blo, bhi =>
    match find_longest_match a b alo ahi blo bhi with
    | MatchBlock.mk bi bj k =>
      if k = 0 then 0
      else matchTotal a b fuel alo bi blo bj + k + matchTotal a b fuel (bi + k) ahi (bj + k) bhi

/-- `SequenceMatcher.ratio()`: `2.0 * M / T` where `M` is the total size of
the matching blocks and `T` the total length, and `1.0` when `T = 0`
(`_calculate_ratio`).  The Python float is modelled exactly in `ℚ`. -/
def ratioOf (a b : List Char) : ℚ :=
  if a.length + b.length = 0 then 1
  else
    2 * ((matchTotal a b (a.length + b.length + 1) 0 a.length 0 b.length : ℕ) : ℚ) /
      ((a.length + b.length : ℕ) : ℚ)

/-- Python `str.lower()` on the character list of a string (ASCII case
mapping, as `Char.toLower`). -/
def lowerChars (s : String) : List Char :=
  s.data.map Char.toLower

/-- `skillbook_manager.string_similarity(a, b)`:
`SequenceMatcher(None, a.lower(), b.lower()).ratio()`. -/
def string_similarity (a b : String) : ℚ :=
  ratioOf (lowerChars a) (lowerChars b)

/-! ## Data model of `skillbook_manager.py`

The `Skill` dataclass (lines 15-32).  `section` is a Lean keyword, so the
field is named `sectionName`.  Vote counters are Python ints (`Int`);
timestamps are the ISO strings produced by `datetime.now(...)`, passed in
explicitly as `now` parameters below (the code's only source of
nondeterminism). -/
structure Skill where
  id : String
  sectionName : String
  content : String
  helpful : Int := 0
  harmful : Int := 0
  neutral : Int := 0
  createdAt : String := ""
  updatedAt : String := ""
  language : Option String := none
  framework : Option String := none
  projectType : Option String := none
deriving Repr, DecidableEq

/-- Python runtime errors that the embedded operations can raise. -/
inductive PyErr where
  /-- `TypeError`, e.g. an unexpected keyword argument. -/
  | typeError (msg : String)
  /-- `AttributeError`, e.g. calling `.get` on a non-dict. -/
  | attributeError (msg : String)
deriving Repr, DecidableEq

/-! ### Loading (`load_skillbook`, lines 47-54)

The file system read is abstracted to its three possible outcomes: the file
is absent (`FileNotFoundError`), its content is not valid JSON
(`json.JSONDecodeError`), or it parses to a JSON value. -/

/-- A parsed JSON value. -/
inductive JsonVal where
  | null
  | bool (b : Bool)
  | num (n : Int)
  | str (s : String)
  | arr (xs : List JsonVal)
  | obj (kvs : List (String × JsonVal))

/-- Outcome of opening and `json.load`-ing the skillbook file. -/
inductive FileReadResult where
  | absent
  | invalidJson
  | json (v : JsonVal)

/-- Value lookup in a JSON object (first binding wins, as in a dict built
without duplicate keys). -/
def jsonLookup (kvs : List (String × JsonVal)) (key : String) : Option JsonVal :=
  kvs.lookup key

/-- `Skill(**s)` for a parsed JSON skill entry: succeeds when `s` is an
object whose keys are exactly the dataclass fields (with `id`, `section`,
`content` mandatory) and whose values are well typed; any other shape
raises `TypeError`.  (Python's dataclass does not type-check field values;
we model the well-typed case and map ill-typed values to `TypeError` —
no theorem below depends on ill-typed field values.) -/
def skill_of_json : JsonVal → Except PyErr Skill
  | JsonVal.obj kvs =>
    let str? : Option JsonVal → Option String := fun v =>
      match v with
      | some (JsonVal.str s) => some s
      | _ => none
    let int? : Option JsonVal → Option Int := fun v =>
      match v with
      | some (JsonVal.num n) => some n
      | none => some 0
      | _ => none
    let optStr? : Option JsonVal → Option (Option String) := fun v =>
      match v with
      | some (JsonVal.str s) => some (some s)
      | some JsonVal.null => some none
      | none => some none
      | _ => none
    let strD : Option JsonVal → Option String := fun v =>
      match v with
      | some (JsonVal.str s) => some s
      | none => some ""
      | _ => none
    if kvs.all (fun kv => kv.1 ∈ ["id", "section", "content", "helpful", "harmful",
        "neutral", "createdAt", "updatedAt", "language", "framework", "projectType"]) then
      match str? (jsonLookup kvs "id"), str? (jsonLookup kvs "section"),
          str? (jsonLookup kvs "content"), int? (jsonLookup kvs "helpful"),
          int? (jsonLookup kvs "harmful"), int? (jsonLookup kvs "neutral"),
          strD (jsonLookup kvs "createdAt"), strD (jsonLookup kvs "updatedAt"),
          optStr? (jsonLookup kvs "language"), optStr? (jsonLookup kvs "framework"),
          optStr? (jsonLookup kvs "projectType") with
      | some i, some sec, some c, some hf, some hm, some nt, some ca, some ua,
          some lg, some fw, some pt =>
        Except.ok (Skill.mk i sec c hf hm nt ca ua lg fw pt)
      | _, _, _, _, _, _, _, _, _, _, _ =>
        Except.error (PyErr.typeError "bad Skill field")
    else Except.error (PyErr.typeError "unexpected keyword argument")
  | _ => Except.error (PyErr.typeError "argument after ** must be a mapping")

/-- `SkillbookManager.load_skillbook` (lines 47-54): returns `[]` when the
file is absent or its content is not valid JSON (both exceptions are
caught); on a parsed JSON value it evaluates
`[Skill(**s) for s in data.get("skills", [])]`, where any further failure
(non-dict document, non-list `skills`, bad entry) propagates. -/
def load_skillbook : FileReadResult → Except PyErr (List Skill)
  | FileReadResult.absent => Except.ok []
  | FileReadResult.invalidJson => Except.ok []
  | FileReadResult.json v =>
    match v with
    | JsonVal.obj kvs =>
      match (jsonLookup kvs "skills").getD (JsonVal.arr []) with
      | JsonVal.arr xs => xs.mapM skill_of_json
      | _ => Except.error (PyErr.typeError "skills value is not iterable over dicts")
    | _ => Except.error (PyErr.attributeError "object has no attribute get")

/-! ### Saving (`save_skillbook`, lines 56-70)

The claim about saving concerns the sequence of file-system operations the
code performs, so the write path is modelled as a trace of operations. -/

/-- File-system operations performed by the save path. -/
inductive FsOp where
  /-- `full_path.parent.mkdir(parents=True, exist_ok=True)` -/
  | mkdirParents (path : String)
  /-- `open(path, "w")`: truncates/creates the file at `path` in place. -/
  | openTruncWrite (path : String)
  /-- `json.dump(data, f)` into the file opened at `path`. -/
  | writeData (path : String)
  /-- `os.rename`/`Path.replace` — never performed by this code. -/
  | rename (src dst : String)
deriving Repr, DecidableEq

/-- `Path(base) / sub`. -/
def joinPath (base sub : String) : String :=
  base ++ "/" ++ sub

/-- `Path(p).parent`: drop the last `/`-separated component. -/
def parentPath (p : String) : String :=
  String.intercalate "/" ((p.splitOn "/").dropLast)

/-- The file-system trace of `SkillbookManager.save_skillbook` (lines
56-70): make the parent directory, then open the target path itself with
mode `"w"` and write the serialized document into it.  No temporary file
and no rename appear. -/
def save_skillbook_trace (base_path skillbook_path : String) : List FsOp :=
  [FsOp.mkdirParents (parentPath (joinPath base_path skillbook_path)),
   FsOp.openTruncWrite (joinPath base_path skillbook_path),
   FsOp.writeData (joinPath base_path skillbook_path)]

/-! ### Deduplication and adding (lines 72-124) -/

/-- `SkillbookManager.find_similar_skill` (lines 72-78): first skill in
scan order whose similarity to `content` meets the threshold. -/
def find_similar_skill (skills : List Skill) (content : String) (threshold : ℚ) :
    Option Skill :=
  match skills with
  | [] => none
  | s :: rest =>
    if threshold ≤ string_similarity s.content content then some s
    else find_similar_skill rest content threshold

/-- The dedup hit of `add_skill` (lines 93-98): the source finds the
existing skill and mutates `existing.updatedAt` through the alias into the
loaded list before saving it; we model this by rebuilding the list with the
first similar element refreshed, returning that element and the saved
list. -/
def touch_first_similar (skills : List Skill) (content : String) (threshold : ℚ)
    (now : String) : Option (Skill × List Skill) :=
  match skills with
  | [] => none
  | s :: rest =>
    if threshold ≤ string_similarity s.content content then
      some ({ s with updatedAt := now }, { s with updatedAt := now } :: rest)
    else
      match touch_first_similar rest content threshold now with
      | some (t, rest') => some (t, s :: rest')
      | none => none

/-- Parse the trailing numeric suffix of a skill id:
`int(skill.id.split("-")[-1])`, with `ValueError` mapped to `none`.  The
last `-`-separated segment is computed by a character fold restarting at
each `-`, which is exactly `id.split("-")[-1]`.  (Python's `int` also
accepts surrounding whitespace or a sign, which cannot occur inside a
`split("-")` segment of the ids this code produces.) -/
def parse_suffix (id : String) : Option ℕ :=
  let seg := id.data.foldl (fun acc c => if c = '-' then [] else acc ++ [c]) []
  if seg ≠ [] ∧ seg.all (fun c => c.isDigit) then
    some (seg.foldl (fun n c => n * 10 + (c.toNat - 48)) 0)
  else none

/-- The `next_id` computation of `add_skill` (lines 100-107): start at 1
and take `max(next_id, suffix + 1)` over the skills of the section,
ignoring ids whose last `-`-segment is not numeric. -/
def next_sequence (skills : List Skill) (sectionArg : String) : ℕ :=
  skills.foldl
    (fun acc s =>
      if s.sectionName = sectionArg then
        match parse_suffix s.id with
        | some m => max acc (m + 1)
        | none => acc
      else acc)
    1

/-- `SkillbookManager.add_skill` (lines 80-124) acting on the loaded
collection.  On a dedup hit it refreshes the existing skill's `updatedAt`,
saves, and returns `(existing, False)` — the `.ok` carries the returned
skill, the `isNew` flag and the saved collection.  On a dedup miss (or with
`deduplicate=False`) the source computes `next_id` and then evaluates
`Skill(..., project_type=project_type)` (line 118); the `Skill` dataclass
declares the field `projectType`, so its generated `__init__` accepts no
keyword `project_type` and this call raises `TypeError` before anything is
appended or saved. -/
def add_skill (skills : List Skill) (sectionArg content : String)
    (deduplicate : Bool) (similarity_threshold : ℚ)
    (language framework project_type : Option String) (now : String) :
    Except PyErr (Skill × Bool × List Skill) :=
  let newSkillCall : Except PyErr (Skill × Bool × List Skill) :=
    -- Lines 100-119: `next_id` is computed and the context tags are passed on
    -- to the constructor, whose keyword mismatch then raises.
    let _ := (next_sequence skills sectionArg, language, framework, project_type)
    Except.error (PyErr.typeError "init got an unexpected keyword argument project_type")
  if deduplicate then
    match touch_first_similar skills content similarity_threshold now with
    | some (existing, skills') => Except.ok (existing, false, skills')
    | none => newSkillCall
  else newSkillCall

/-! ### Scoring and removal (lines 126-179) -/

/-- `setattr(skill, tag, current + increment)` followed by the `updatedAt`
refresh, for a valid `tag`. -/
def apply_tag (s : Skill) (tag : String) (increment : Int) (now : String) : Skill :=
  if tag = "helpful" then { s with helpful := s.helpful + increment, updatedAt := now }
  else if tag = "harmful" then { s with harmful := s.harmful + increment, updatedAt := now }
  else { s with neutral := s.neutral + increment, updatedAt := now }

/-- The scan of `tag_skill` over the loaded list: update the first skill
whose id matches (through the alias, hence inside the saved list) and
return it with the saved collection; `none` when no id matches — then
nothing is saved. -/
def tag_skill_scan (skills : List Skill) (skill_id tag : String) (increment : Int)
    (now : String) : Option (Skill × List Skill) :=
  match skills with
  | [] => none
  | s :: rest =>
    if s.id = skill_id then
      some (apply_tag s tag increment now, apply_tag s tag increment now :: rest)
    else
      match tag_skill_scan rest skill_id tag increment now with
      | some (t, rest') => some (t, s :: rest')
      | none => none

/-- `SkillbookManager.tag_skill` (lines 126-142): `None` when the tag is
not one of `helpful/harmful/neutral` or when no skill has the id (the
operation returns normally in both cases — no exception is raised and
nothing is saved); otherwise the updated skill and the saved collection. -/
def tag_skill (skills : List Skill) (skill_id tag : String) (increment : Int)
    (now : String) : Option (Skill × List Skill) :=
  if tag = "helpful" ∨ tag = "harmful" ∨ tag = "neutral" then
    tag_skill_scan skills skill_id tag increment now
  else none

/-- `SkillbookManager.remove_skill` (lines 169-179): filter out the id;
save only when the collection shrank.  The second component is `some` of
the saved collection exactly when `save_skillbook` is called, and `none`
when the code returns `False` without saving (the persisted collection is
then untouched). -/
def remove_skill (skills : List Skill) (skill_id : String) :
    Bool × Option (List Skill) :=
  if (skills.filter (fun s => s.id ≠ skill_id)).length < skills.length then
    (true, some (skills.filter (fun s => s.id ≠ skill_id)))
  else (false, none)

/-- N-fold repetition of `add_skill` on the same section/content with
deduplication enabled, threading the saved collection; `nows n` is the
timestamp of call `n`.  Collects each call's `(returned skill, isNew)`. -/
def repeat_add (sectionArg content : String) (threshold : ℚ)
    (language framework project_type : Option String) (nows : ℕ → String) :
    ℕ → List Skill → Option (List (Skill × Bool) × List Skill)
  | 0, skills => some ([], skills)
  | n + 1, skills =>
    match add_skill skills sectionArg content true threshold
        language framework project_type (nows 0) with
    | Except.ok (s, isNew, skills') =>
      match repeat_add sectionArg content threshold language framework project_type
          (fun i => nows (i + 1)) n skills' with
      | some (res, final) => some ((s, isNew) :: res, final)
      | none => none
    | Except.error _ => none

/-! ## Data model of `ace_opencode/skillbook_ext.py`

`ContextAwareSkill` (`skill_ext.py`) extends the external `ace` package's
`Skill` (fields `id, section, content, helpful, harmful, neutral,
created_at, updated_at, embedding, status`) with context tags.  `section`
is a Lean keyword, so the field is named `sectionName`. -/
structure ContextAwareSkill where
  id : String
  sectionName : String
  content : String
  helpful : Int := 0
  harmful : Int := 0
  neutral : Int := 0
  created_at : String := ""
  updated_at : String := ""
  embedding : Option (List ℚ) := none
  status : String := "active"
  language : Option String := none
  framework : Option String := none
  project_type : Option String := none
  hierarchy_level : String := "global"
  promotion_count : Int := 0
  source_project : Option String := none
deriving Repr, DecidableEq

/-- `HierarchyConfig.__init__` with its defaults. -/
structure HierarchyConfig where
  base_path : String
  global_path : String := "global/universal.json"
  languages_dir : String := "languages"
  frameworks_dir : String := "frameworks"
  projects_dir : String := "projects"
deriving Repr, DecidableEq

/-- `ProjectContext.__init__`: all fields optional. -/
structure ProjectContext where
  language : Option String := none
  framework : Option String := none
  project_type : Option String := none
  project_id : Option String := none
  working_directory : Option String := none
deriving Repr, DecidableEq

/-- Python truthiness of an optional string (`if context.framework:` is
false for both `None` and `""`): the value when truthy, else `none`. -/
def truthy : Option String → Option String
  | some s => if s = "" then none else some s
  | none => none

/-- In-memory state of the base `ace` `Skillbook` as used by
`ContextAwareSkillbook`: the dict `self._skills` (id → skill) and the
section index `self._sections` (section → ordered ids), both modelled as
insertion-ordered association lists. -/
structure SkillbookState where
  skills : List (String × ContextAwareSkill)
  sections : List (String × List String)
deriving Repr, DecidableEq

/-- The empty state of a freshly constructed skillbook. -/
def emptyState : SkillbookState :=
  SkillbookState.mk [] []

/-- `self._sections.setdefault(skill.section, []).append(skill_id)`. -/
def add_section_id (sections : List (String × List String)) (sec id : String) :
    List (String × List String) :=
  match sections with
  | [] => [(sec, [id])]
  | (k, ids) :: rest =>
    if k = sec then (k, ids ++ [id]) :: rest
    else (k, ids) :: add_section_id rest sec id

/-- One iteration of the merge loop of
`ContextAwareSkillbook._load_from_path` (lines 175-211): insert the entry
only when its id is not already present (`if skill_id not in self._skills`)
and keep the section index in sync, counting only new insertions. -/
def merge_entry (acc : SkillbookState × ℕ) (e : String × ContextAwareSkill) :
    SkillbookState × ℕ :=
  if ((acc.1.skills.lookup e.1).isSome) then acc
  else
    (SkillbookState.mk (acc.1.skills ++ [e])
       (add_section_id acc.1.sections e.2.sectionName e.1),
     acc.2 + 1)

/-- `ContextAwareSkillbook._load_from_path` (lines 162-217) on the parsed
contents of one layer file.  `none` stands for a missing file, unreadable
JSON or a failed skill construction — the method logs and reports `0`
loaded (the JSON parse and the `ContextAwareSkill`/`ACESkill` construction
are abstracted to the resulting id/skill pairs; a mid-layer construction
failure behaves like a shorter entry list, which the theorems quantify
over). -/
def load_from_path (st : SkillbookState)
    (layer : Option (List (String × ContextAwareSkill))) : SkillbookState × ℕ :=
  match layer with
  | none => (st, 0)
  | some entries => entries.foldl merge_entry (st, 0)

/-- The ordered read layers of `load_hierarchical` (lines 106-160): the
global path always, then the language, framework and project paths, each
only when the corresponding context field is truthy.  Each entry carries
the `source_name` label used for `_loaded_sources`. -/
def hierarchy_layers (c : HierarchyConfig) (ctx : ProjectContext) :
    List (String × String) :=
  [(joinPath c.base_path c.global_path, "global")] ++
  (match truthy ctx.language with
   | some l => [(joinPath c.base_path (c.languages_dir ++ "/" ++ l.toLower ++ ".json"),
                 "language/" ++ l)]
   | none => []) ++
  (match truthy ctx.framework with
   | some f => [(joinPath c.base_path (c.frameworks_dir ++ "/" ++ f.toLower ++ ".json"),
                 "framework/" ++ f)]
   | none => []) ++
  (match truthy ctx.project_id with
   | some p => [(joinPath c.base_path (c.projects_dir ++ "/" ++ p ++ ".json"),
                 "project/" ++ p)]
   | none => [])

/-- Fold of `_load_from_path` over a list of layers, accumulating the total
and, for each layer with `loaded > 0`, its source label. -/
def load_layers (fs : String → Option (List (String × ContextAwareSkill))) :
    List (String × String) → SkillbookState → SkillbookState × ℕ × List String
  | [], st => (st, 0, [])
  | (path, name) :: rest, st =>
    let r := load_from_path st (fs path)
    let restRes := load_layers fs rest r.1
    if 0 < r.2 then
      (restRes.1, r.2 + restRes.2.1,
       (name ++ " (" ++ toString r.2 ++ " skills)") :: restRes.2.2)
    else (restRes.1, restRes.2.1, restRes.2.2)

/-- `ContextAwareSkillbook.load_hierarchical` (lines 106-160): with no
hierarchy config it loads nothing; otherwise it merges the layers of
`hierarchy_layers` in order into the current state.  `fs` maps a path to
the parsed contents of the file there (see `load_from_path`). -/
def load_hierarchical (cfg : Option HierarchyConfig) (ctx : ProjectContext)
    (fs : String → Option (List (String × ContextAwareSkill)))
    (st : SkillbookState) : SkillbookState × ℕ × List String :=
  match cfg with
  | none => (st, 0, [])
  | some c => load_layers fs (hierarchy_layers c ctx) st

/-- `ContextAwareSkillbook.route_skill` (lines 219-240): the write-path
routing.  A total function of the config, the skill and the context. -/
def route_skill (cfg : Option HierarchyConfig) (sk : ContextAwareSkill)
    (ctx : ProjectContext) : String :=
  match cfg with
  | none => "global/universal.json"
  | some c =>
    let projectBranch :=
      if sk.hierarchy_level = "project" then
        match truthy ctx.project_id with
        | some p => c.projects_dir ++ "/" ++ p ++ ".json"
        | none => c.global_path
      else c.global_path
    let languageBranch :=
      if sk.hierarchy_level = "language" then
        match truthy ctx.language with
        | some l => c.languages_dir ++ "/" ++ l.toLower ++ ".json"
        | none => projectBranch
      else projectBranch
    if sk.hierarchy_level = "framework" then
      match truthy ctx.framework with
      | some f => c.frameworks_dir ++ "/" ++ f.toLower ++ ".json"
      | none => languageBranch
    else languageBranch

/-- Specification-side description of the merge conflict rule (spec §3
invariant, §4.3 and §8 "Merge precedence"): the version kept for an id is
the one from the first-loaded layer that contains it. -/
def first_loaded_version
    (layers : List (Option (List (String × ContextAwareSkill)))) (id : String) :
    Option ContextAwareSkill :=
  match layers with
  | [] => none
  | none :: rest => first_loaded_version rest id
  | some entries :: rest =>
    match entries.lookup id with
    | some sk => some sk
    | none => first_loaded_version rest id

/-! ## Helper lemmas -/

/-- A successful association-list lookup exhibits a member. -/
lemma lookup_mem : ∀ {l : List (ℕ × ℕ)} {k v : ℕ}, l.lookup k = some v → (k, v) ∈ l := by
  intro l
  induction l with
  | nil => intro k v h; simp [List.lookup] at h
  | cons e rest ih =>
    intro k v h
    rw [List.lookup] at h
    split at h
    · next heq =>
      have hk : k = e.1 := by simpa using heq
      have hv : v = e.2 := by injection h; omega
      subst hk; subst hv
      exact List.mem_cons_self _ _
    · exact List.mem_cons_of_mem _ (ih h)

/-- `Char.ofNat` on a valid code point round-trips through `toNat`. -/
lemma toNat_ofNat_of_valid (n : ℕ) (h : n.isValidChar) : (Char.ofNat n).toNat = n := by
  simp [Char.ofNat, h, Char.ofNatAux, Char.toNat, UInt32.toNat]

/-- Python's ASCII lowering is idempotent. -/
lemma char_toLower_idem (c : Char) : c.toLower.toLower = c.toLower := by
  simp only [Char.toLower]
  split
  · next h =>
    have hv : (c.toNat + 32).isValidChar := Or.inl (by omega)
    rw [toNat_ofNat_of_valid _ hv, if_neg (by omega)]
  · rfl

/-! ## Claim C1 (code_bug evidence)

The spec scenario expects the first `add` on an empty skillbook to return a
new skill `success-00001` with `isNew=true`.  The id the code computes for
that add is indeed `1`, but the construction of the new skill raises
`TypeError` (`Skill` declares `projectType` while `add_skill` passes the
keyword `project_type`), so the call never returns. -/

/-- C1: on a skillbook that starts empty, adding
"Use async file I/O for large uploads" to section `success` with
deduplication enabled and threshold 0.85 computes next sequence number 1
(the id would be `success-00001`) but raises `TypeError` instead of
returning a new skill. -/
theorem c1_first_add_raises_type_error :
    next_sequence [] "success" = 1 ∧
    add_skill [] "success" "Use async file I/O for large uploads" true (85 / 100)
        none none none "2024-01-01T00:00:00+00:00" =
      Except.error
        (PyErr.typeError "init got an unexpected keyword argument project_type") :=
  ⟨rfl, rfl⟩

/-! ## Claim C8 (code_bug evidence) -/

/-- Is the operation a rename? -/
def is_rename : FsOp → Bool
  | FsOp.rename _ _ => true
  | _ => false

/-- C8: the save path is not atomic — `save_skillbook` opens the target
path itself in write mode (truncating in place) and performs no rename of
a temporary file; the claimed temp-file-plus-rename scheme is absent. -/
theorem c8_save_writes_target_in_place (base p : String) :
    FsOp.openTruncWrite (joinPath base p) ∈ save_skillbook_trace base p ∧
    (save_skillbook_trace base p).all (fun op => !(is_rename op)) = true := by
  constructor
  · simp [save_skillbook_trace]
  · rfl

/-! ## Claim C4 -/

/-- C4: `load_skillbook` returns the empty collection, raising nothing, in
exactly the two recoverable cases — file absent, content not valid JSON;
any other malformation propagates an error (witnessed here by a valid JSON
document that is not an object, which raises `AttributeError`, and by a
`skills` entry that is not a dict, which raises `TypeError`). -/
theorem c4_load_recovers_exactly_two_cases :
    load_skillbook FileReadResult.absent = Except.ok [] ∧
    load_skillbook FileReadResult.invalidJson = Except.ok [] ∧
    load_skillbook (FileReadResult.json (JsonVal.num 5)) =
      Except.error (PyErr.attributeError "object has no attribute get") ∧
    load_skillbook
        (FileReadResult.json (JsonVal.obj [("skills", JsonVal.arr [JsonVal.num 1])])) =
      Except.error (PyErr.typeError "argument after ** must be a mapping") :=
  ⟨rfl, rfl, rfl, rfl⟩

/-! ## Claims C9 and C10 -/

/-- The scan of `tag_skill` misses when no skill has the id. -/
lemma tag_skill_scan_absent (skill_id tag : String) (inc : Int) (now : String) :
    ∀ skills : List Skill, (∀ x ∈ skills, x.id ≠ skill_id) →
      tag_skill_scan skills skill_id tag inc now = none := by
  intro skills
  induction skills with
  | nil => intro _; rfl
  | cons s rest ih =>
    intro h
    rw [tag_skill_scan, if_neg (h s (List.mem_cons_self _ _)),
      ih (fun x hx => h x (List.mem_cons_of_mem _ hx))]

/-- The scan of `tag_skill` hits the first skill carrying the id and
rebuilds the list around its updated version. -/
lemma tag_skill_scan_found (skill_id tag : String) (inc : Int) (now : String)
    (s : Skill) (post : List Skill) (hs : s.id = skill_id) :
    ∀ pre : List Skill, (∀ x ∈ pre, x.id ≠ skill_id) →
      tag_skill_scan (pre ++ s :: post) skill_id tag inc now =
        some (apply_tag s tag inc now, pre ++ apply_tag s tag inc now :: post) := by
  intro pre
  induction pre with
  | nil => intro _; rw [List.nil_append, tag_skill_scan, if_pos hs, List.nil_append]
  | cons p rest ih =>
    intro h
    rw [List.cons_append, tag_skill_scan, if_neg (h p (List.mem_cons_self _ _)),
      ih (fun x hx => h x (List.mem_cons_of_mem _ hx))]
    rfl

/-- C9 (counterexample): scoring an id that is not present returns `None`
normally — no `SkillNotFoundError` (no exception of any kind) is raised,
and nothing is saved. -/
theorem c9_absent_id_returns_none :
    tag_skill [Skill.mk "success-00001" "success" "alpha" 0 0 0 "t0" "t0" none none none]
      "success-99999" "helpful" 1 "t1" = none := rfl

/-- C9 (amended): for a vote in `{helpful, harmful, neutral}`, scoring a
present id increments exactly the named counter by the delta and refreshes
`updatedAt` in the saved collection; scoring an absent id returns `None`
(no save) rather than failing with `SkillNotFoundError`. -/
theorem c9_score_semantics (skills pre post : List Skill) (s : Skill)
    (skill_id tag : String) (inc : Int) (now : String)
    (htag : tag = "helpful" ∨ tag = "harmful" ∨ tag = "neutral") :
    ((∀ x ∈ skills, x.id ≠ skill_id) → tag_skill skills skill_id tag inc now = none) ∧
    (skills = pre ++ s :: post → s.id = skill_id → (∀ x ∈ pre, x.id ≠ skill_id) →
      ∃ s', tag_skill skills skill_id tag inc now = some (s', pre ++ s' :: post) ∧
        s'.id = s.id ∧ s'.sectionName = s.sectionName ∧ s'.content = s.content ∧
        s'.createdAt = s.createdAt ∧ s'.updatedAt = now ∧
        (tag = "helpful" →
          s'.helpful = s.helpful + inc ∧ s'.harmful = s.harmful ∧ s'.neutral = s.neutral) ∧
        (tag = "harmful" →
          s'.harmful = s.harmful + inc ∧ s'.helpful = s.helpful ∧ s'.neutral = s.neutral) ∧
        (tag = "neutral" →
          s'.neutral = s.neutral + inc ∧ s'.helpful = s.helpful ∧ s'.harmful = s.harmful)) := by
  constructor
  · intro habs
    rw [tag_skill, if_pos htag, tag_skill_scan_absent _ _ _ _ _ habs]
  · intro heq hid hpre
    subst heq
    rw [tag_skill, if_pos htag, tag_skill_scan_found _ _ _ _ _ _ hid _ hpre]
    refine ⟨apply_tag s tag inc now, rfl, ?_⟩
    rcases htag with h | h | h <;> subst h <;>
      simp [apply_tag]

/-- C9 (witness): applying the amended theorem at a concrete collection —
a `harmful` vote on the second of two skills. -/
theorem c9_score_semantics_witness :
    ("harmful" = "helpful" ∨ "harmful" = "harmful" ∨ "harmful" = "neutral") ∧
    (∃ s', tag_skill
        [Skill.mk "success-00001" "success" "alpha" 3 1 0 "t0" "t0" none none none,
         Skill.mk "success-00002" "success" "beta" 0 2 5 "t0" "t0" none none none]
        "success-00002" "harmful" 2 "t9" =
        some (s', [Skill.mk "success-00001" "success" "alpha" 3 1 0 "t0" "t0" none none none,
                   s']) ∧
      s'.id = "success-00002" ∧ s'.sectionName = "success" ∧ s'.content = "beta" ∧
      s'.createdAt = "t0" ∧ s'.updatedAt = "t9" ∧
      ("harmful" = "helpful" → s'.helpful = 0 + 2 ∧ s'.harmful = 0 ∧ s'.neutral = 0) ∧
      ("harmful" = "harmful" → s'.harmful = 2 + 2 ∧ s'.helpful = 0 ∧ s'.neutral = 5) ∧
      ("harmful" = "neutral" → s'.neutral = 5 + 2 ∧ s'.helpful = 0 ∧ s'.harmful = 2)) := by
  refine ⟨by decide, ?_⟩
  simpa using (c9_score_semantics
    [Skill.mk "success-00001" "success" "alpha" 3 1 0 "t0" "t0" none none none,
     Skill.mk "success-00002" "success" "beta" 0 2 5 "t0" "t0" none none none]
    [Skill.mk "success-00001" "success" "alpha" 3 1 0 "t0" "t0" none none none] []
    (Skill.mk "success-00002" "success" "beta" 0 2 5 "t0" "t0" none none none)
    "success-00002" "harmful" 2 "t9" (by decide)).2 rfl rfl (by decide)

/-- Filtering away an id that occurs nowhere leaves the collection
unchanged. -/
lemma filter_ne_id_of_absent (skills : List Skill) (skill_id : String)
    (h : ∀ x ∈ skills, x.id ≠ skill_id) :
    skills.filter (fun s => s.id ≠ skill_id) = skills := by
  rw [List.filter_eq_self]
  intro a ha
  simpa using h a ha

/-- C10: removing an absent id returns `False` and performs no save, so the
persisted collection is exactly the one loaded; removing a present id (ids
being unique, per the data-model invariant) returns `True` and saves the
collection with exactly that skill deleted. -/
theorem c10_remove_semantics (skills pre post : List Skill) (s : Skill)
    (skill_id : String) :
    ((∀ x ∈ skills, x.id ≠ skill_id) → remove_skill skills skill_id = (false, none)) ∧
    ((skills.map Skill.id).Nodup → skills = pre ++ s :: post → s.id = skill_id →
      remove_skill skills skill_id = (true, some (pre ++ post))) := by
  constructor
  · intro habs
    rw [remove_skill]
    simp only [filter_ne_id_of_absent skills skill_id habs]
    rw [if_neg (lt_irrefl _)]
  · intro hnd heq hid
    subst heq
    rw [List.map_append, List.map_cons, List.nodup_append] at hnd
    obtain ⟨-, hnd2, hdisj⟩ := hnd
    have hpre : ∀ x ∈ pre, x.id ≠ skill_id := by
      intro x hx
      rw [← hid]
      exact fun hcon =>
        (hdisj (List.mem_map_of_mem Skill.id hx)) (hcon ▸ List.mem_cons_self _ _)
    have hpost : ∀ x ∈ post, x.id ≠ skill_id := by
      intro x hx hcon
      exact (List.nodup_cons.mp hnd2).1
        (hid ▸ hcon ▸ List.mem_map_of_mem Skill.id hx)
    have hfil : (pre ++ s :: post).filter (fun x => x.id ≠ skill_id) = pre ++ post := by
      rw [List.filter_append, filter_ne_id_of_absent pre skill_id hpre, List.filter_cons,
        filter_ne_id_of_absent post skill_id hpost]
      simp [hid]
    rw [remove_skill, hfil,
      if_pos (by simp only [List.length_append, List.length_cons]; omega)]

/-- C10 (witness): applying the theorem at a concrete two-skill
collection — removing a missing id changes nothing and saves nothing,
removing the second skill saves the one-skill remainder. -/
theorem c10_remove_semantics_witness :
    remove_skill
        [Skill.mk "a-00001" "s" "x" 0 0 0 "t" "t" none none none,
         Skill.mk "b-00002" "s" "y" 0 0 0 "t" "t" none none none]
        "c-00003" = (false, none) ∧
    remove_skill
        [Skill.mk "a-00001" "s" "x" 0 0 0 "t" "t" none none none,
         Skill.mk "b-00002" "s" "y" 0 0 0 "t" "t" none none none]
        "b-00002" =
      (true, some [Skill.mk "a-00001" "s" "x" 0 0 0 "t" "t" none none none]) := by
  constructor
  · exact (c10_remove_semantics
      [Skill.mk "a-00001" "s" "x" 0 0 0 "t" "t" none none none,
       Skill.mk "b-00002" "s" "y" 0 0 0 "t" "t" none none none]
      [] [] (Skill.mk "a-00001" "s" "x" 0 0 0 "t" "t" none none none) "c-00003").1
      (by decide)
  · simpa using (c10_remove_semantics
      [Skill.mk "a-00001" "s" "x" 0 0 0 "t" "t" none none none,
       Skill.mk "b-00002" "s" "y" 0 0 0 "t" "t" none none none]
      [Skill.mk "a-00001" "s" "x" 0 0 0 "t" "t" none none none] []
      (Skill.mk "b-00002" "s" "y" 0 0 0 "t" "t" none none none) "b-00002").2
      (by decide) rfl rfl

/-! ## Claim C3 -/

/-- C3: `route_skill` is total by construction (it is a function into
`String`), and routes by hierarchy level with fallback to the global path:
a `framework`-level skill goes to the framework layer path when
`context.framework` is set (a non-empty string — Python truthiness) and to
the global path when it is missing, likewise for `language` with
`context.language` and `project` with `context.project_id`, while a
`global`-level skill always goes to the global path (with no hierarchy
config at all, the default global path is returned). -/
theorem c3_route_skill_total (c : HierarchyConfig) (sk : ContextAwareSkill)
    (ctx : ProjectContext) (f l p : String) :
    route_skill none sk ctx = "global/universal.json" ∧
    (sk.hierarchy_level = "framework" → ctx.framework = some f → f ≠ "" →
      route_skill (some c) sk ctx = c.frameworks_dir ++ "/" ++ f.toLower ++ ".json") ∧
    (sk.hierarchy_level = "framework" → ctx.framework = none →
      route_skill (some c) sk ctx = c.global_path) ∧
    (sk.hierarchy_level = "language" → ctx.language = some l → l ≠ "" →
      route_skill (some c) sk ctx = c.languages_dir ++ "/" ++ l.toLower ++ ".json") ∧
    (sk.hierarchy_level = "language" → ctx.language = none →
      route_skill (some c) sk ctx = c.global_path) ∧
    (sk.hierarchy_level = "project" → ctx.project_id = some p → p ≠ "" →
      route_skill (some c) sk ctx = c.projects_dir ++ "/" ++ p ++ ".json") ∧
    (sk.hierarchy_level = "project" → ctx.project_id = none →
      route_skill (some c) sk ctx = c.global_path) ∧
    (sk.hierarchy_level = "global" → route_skill (some c) sk ctx = c.global_path) := by
  refine ⟨rfl, ?_, ?_, ?_, ?_, ?_, ?_, ?_⟩ <;>
    first
      | (intro h1 h2 h3; simp [route_skill, truthy, h1, h2, h3])
      | (intro h1 h2; simp [route_skill, truthy, h1, h2])
      | (intro h1; simp [route_skill, truthy, h1])

/-- C3 (witness): a `framework`-level skill with context
`{framework := "django"}` routes to the framework layer path, and the same
skill with no framework in the context falls back to the global path. -/
theorem c3_route_skill_total_witness :
    route_skill
        (some (HierarchyConfig.mk "skillbooks" "global/universal.json"
          "languages" "frameworks" "projects"))
        { id := "f-00001", sectionName := "s", content := "c",
          hierarchy_level := "framework" }
        { framework := some "django" } = "frameworks/django.json" ∧
    route_skill
        (some (HierarchyConfig.mk "skillbooks" "global/universal.json"
          "languages" "frameworks" "projects"))
        { id := "f-00001", sectionName := "s", content := "c",
          hierarchy_level := "framework" }
        { framework := none } = "global/universal.json" := by
  constructor
  · rw [(c3_route_skill_total
      (HierarchyConfig.mk "skillbooks" "global/universal.json"
        "languages" "frameworks" "projects")
      { id := "f-00001", sectionName := "s", content := "c",
        hierarchy_level := "framework" }
      { framework := some "django" } "django" "x" "y").2.1 rfl rfl (by decide)]
    rw [String.toLower, String.map_eq]
    decide
  · rw [(c3_route_skill_total
      (HierarchyConfig.mk "skillbooks" "global/universal.json"
        "languages" "frameworks" "projects")
      { id := "f-00001", sectionName := "s", content := "c",
        hierarchy_level := "framework" }
      { framework := none } "x" "x" "y").2.2.1 rfl rfl]

/-! ## Claim C6 (code_bug evidence) -/

/-- A concrete loaded collection for the id-assignment claim: a `success`
skill with suffix 7, a malformed `success` id (ignored by the scan), and a
`failure` skill with a higher suffix (out of section, also ignored). -/
def c6_state : List Skill :=
  [Skill.mk "success-00007" "success" "alpha" 0 0 0 "t0" "t0" none none none,
   Skill.mk "bad" "success" "beta" 0 0 0 "t0" "t0" none none none,
   Skill.mk "failure-00099" "failure" "gamma" 0 0 0 "t0" "t0" none none none]

/-- C6: the next-id computation matches the claim — one plus the maximal
numeric suffix among the skills of the section (8 here), ignoring the
malformed id and the other section — but no id is ever assigned: the add
that should create `success-00008` raises `TypeError` in the `Skill`
constructor call (keyword `project_type` against field `projectType`)
before appending or saving anything. -/
theorem c6_next_id_computed_but_never_assigned :
    next_sequence c6_state "success" = 8 ∧
    add_skill c6_state "success" "zzzz" true (85 / 100) none none none "t1" =
      Except.error
        (PyErr.typeError "init got an unexpected keyword argument project_type") := by
  constructor
  · decide
  · have ha : ¬ ((85 : ℚ) / 100 ≤ string_similarity "alpha" "zzzz") := by
      rw [show string_similarity "alpha" "zzzz" = 2 * ((0 : ℕ) : ℚ) / ((9 : ℕ) : ℚ) from rfl]
      norm_num
    have hb : ¬ ((85 : ℚ) / 100 ≤ string_similarity "beta" "zzzz") := by
      rw [show string_similarity "beta" "zzzz" = 2 * ((0 : ℕ) : ℚ) / ((8 : ℕ) : ℚ) from rfl]
      norm_num
    have hc : ¬ ((85 : ℚ) / 100 ≤ string_similarity "gamma" "zzzz") := by
      rw [show string_similarity "gamma" "zzzz" = 2 * ((0 : ℕ) : ℚ) / ((9 : ℕ) : ℚ) from rfl]
      norm_num
    simp [add_skill, c6_state, touch_first_similar, ha, hb, hc]

/-! ## Claim C2 -/

/-- Association lookup distributes over append, first list winning. -/
lemma lookup_append_assoc (l1 l2 : List (String × ContextAwareSkill)) (k : String) :
    (l1 ++ l2).lookup k = ((l1.lookup k) <|> (l2.lookup k)) := by
  induction l1 with
  | nil => simp [List.lookup]
  | cons e l1 ih =>
    rw [List.cons_append, List.lookup, List.lookup]
    cases hke : (k == e.1) with
    | true => rfl
    | false => rw [ih]

/-- Lookup after folding a layer's entries into the state: the state wins,
then the first occurrence inside the layer. -/
lemma load_entries_lookup :
    ∀ (entries : List (String × ContextAwareSkill)) (st0 : SkillbookState × ℕ)
      (id : String),
      ((entries.foldl merge_entry st0).1.skills.lookup id) =
        ((st0.1.skills.lookup id) <|> (entries.lookup id)) := by
  intro entries
  induction entries with
  | nil => intro st0 id; simp [List.lookup]
  | cons e rest ih =>
    intro st0 id
    rw [List.foldl_cons, ih]
    rw [show e :: rest = [e] ++ rest from rfl, lookup_append_assoc]
    by_cases hsome : (st0.1.skills.lookup e.1).isSome
    · rw [merge_entry, if_pos hsome]
      by_cases hke : id = e.1
      · subst hke
        obtain ⟨v, hv⟩ := Option.isSome_iff_exists.mp hsome
        rw [hv]
        simp
      · have h1 : (([e] : List (String × ContextAwareSkill)).lookup id) = none := by
          rw [List.lookup, beq_eq_false_iff_ne.mpr hke]
          rfl
        rw [h1]
        simp
    · rw [merge_entry, if_neg hsome]
      simp only
      rw [lookup_append_assoc]
      cases h0 : st0.1.skills.lookup id <;> simp

/-- Unfolding `first_loaded_version` on a present layer as an `orElse`. -/
lemma first_loaded_version_cons_some (entries : List (String × ContextAwareSkill))
    (rest : List (Option (List (String × ContextAwareSkill)))) (id : String) :
    first_loaded_version (some entries :: rest) id =
      ((entries.lookup id) <|> first_loaded_version rest id) := by
  rw [first_loaded_version]
  cases h : entries.lookup id <;> simp

/-- The state produced by `load_layers` ignores the `loaded > 0` gating
(which only affects the counter and the source labels). -/
lemma load_layers_state (fs : String → Option (List (String × ContextAwareSkill)))
    (path name : String) (rest : List (String × String)) (st : SkillbookState) :
    (load_layers fs ((path, name) :: rest) st).1 =
      (load_layers fs rest (load_from_path st (fs path)).1).1 := by
  rw [load_layers]
  split <;> rfl

/-- Lookup in the state after merging a list of layers: the initial state
wins, then the first-loaded layer containing the id. -/
lemma load_layers_lookup (fs : String → Option (List (String × ContextAwareSkill))) :
    ∀ (layers : List (String × String)) (st : SkillbookState) (id : String),
      (((load_layers fs layers st).1).skills.lookup id) =
        ((st.skills.lookup id) <|>
          first_loaded_version (layers.map (fun pl => fs pl.1)) id) := by
  intro layers
  induction layers with
  | nil => intro st id; simp [load_layers, first_loaded_version]
  | cons pl rest ih =>
    intro st id
    obtain ⟨path, name⟩ := pl
    rw [load_layers_state, ih, List.map_cons]
    cases hfs : fs path with
    | none =>
      rw [load_from_path]
      rw [show first_loaded_version (none :: List.map (fun pl => fs pl.1) rest) id =
        first_loaded_version (List.map (fun pl => fs pl.1) rest) id from rfl]
    | some entries =>
      rw [load_from_path, load_entries_lookup, first_loaded_version_cons_some]
      cases h0 : st.skills.lookup id <;> simp

/-- C2: merging layers never overwrites an already-present id — for every
context (hence every load order global, then language, then framework,
then project) and every id, the merged in-memory view holds exactly the
version from the first-loaded layer that contains the id. -/
theorem c2_first_loaded_layer_wins (c : HierarchyConfig) (ctx : ProjectContext)
    (fs : String → Option (List (String × ContextAwareSkill))) (id : String) :
    ((load_hierarchical (some c) ctx fs emptyState).1.skills.lookup id) =
      first_loaded_version ((hierarchy_layers c ctx).map (fun pl => fs pl.1)) id := by
  rw [show load_hierarchical (some c) ctx fs emptyState =
    load_layers fs (hierarchy_layers c ctx) emptyState from rfl]
  rw [load_layers_lookup]
  simp [emptyState, List.lookup]

/-! ## Claim C5 -/

/-- Everything of a skill except `updatedAt` (the claim's frame: id,
section, content, the three counters, `createdAt`, and the context tags). -/
def skill_frame (s : Skill) :
    String × String × String × Int × Int × Int × String ×
      Option String × Option String × Option String :=
  (s.id, s.sectionName, s.content, s.helpful, s.harmful, s.neutral, s.createdAt,
   s.language, s.framework, s.projectType)

/-- Overwriting `updatedAt` twice keeps only the last value. -/
lemma skill_updatedAt_overwrite (s : Skill) (a b : String) :
    ({ { s with updatedAt := a } with updatedAt := b } : Skill) =
      { s with updatedAt := b } := rfl

/-- A skill above the threshold somewhere in the list makes the linear scan
of `find_similar_skill` succeed. -/
lemma find_similar_of_exists (content : String) (θ : ℚ) :
    ∀ skills : List Skill,
      (∃ s ∈ skills, θ ≤ string_similarity s.content content) →
      ∃ s₀, find_similar_skill skills content θ = some s₀ := by
  intro skills
  induction skills with
  | nil => rintro ⟨s, hs, -⟩; cases hs
  | cons a rest ih =>
    rintro ⟨s, hs, hsim⟩
    rw [find_similar_skill]
    by_cases ha : θ ≤ string_similarity a.content content
    · rw [if_pos ha]; exact ⟨a, rfl⟩
    · rw [if_neg ha]
      apply ih
      rcases List.mem_cons.mp hs with he | hr
      · exact absurd (he ▸ hsim) ha
      · exact ⟨s, hr, hsim⟩

/-- The dedup hit refreshes exactly the first similar skill's `updatedAt`:
the saved collection is frame-identical to the loaded one, and the next
scan finds the same skill (refreshed) again. -/
lemma touch_first_similar_spec (content : String) (θ : ℚ) (now : String) :
    ∀ (skills : List Skill) (s₀ : Skill),
      find_similar_skill skills content θ = some s₀ →
      ∃ skills', touch_first_similar skills content θ now =
          some ({ s₀ with updatedAt := now }, skills') ∧
        skills'.map skill_frame = skills.map skill_frame ∧
        find_similar_skill skills' content θ = some { s₀ with updatedAt := now } := by
  intro skills
  induction skills with
  | nil => intro s₀ h; rw [find_similar_skill] at h; exact Option.noConfusion h
  | cons a rest ih =>
    intro s₀ h
    rw [find_similar_skill] at h
    by_cases ha : θ ≤ string_similarity a.content content
    · rw [if_pos ha] at h
      injection h with h'
      subst h'
      refine ⟨{ a with updatedAt := now } :: rest, ?_, ?_, ?_⟩
      · rw [touch_first_similar, if_pos ha]
      · simp [skill_frame]
      · rw [find_similar_skill, if_pos ha]
    · rw [if_neg ha] at h
      obtain ⟨rest', h1, h2, h3⟩ := ih s₀ h
      refine ⟨a :: rest', ?_, ?_, ?_⟩
      · rw [touch_first_similar, if_neg ha, h1]
      · simp [h2]
      · rw [find_similar_skill, if_neg ha, h3]

/-- Iterating the deduplicating add: every call returns the same skill
(`isNew = false`) with only `updatedAt` moved to that call's timestamp, and
the final saved collection is frame-identical to the initial one. -/
lemma repeat_add_spec (sectionArg content : String) (θ : ℚ)
    (language framework project_type : Option String) :
    ∀ (N : ℕ) (nows : ℕ → String) (skills : List Skill) (s₀ : Skill),
      find_similar_skill skills content θ = some s₀ →
      ∃ final,
        repeat_add sectionArg content θ language framework project_type nows N skills =
          some ((List.range N).map (fun i => ({ s₀ with updatedAt := nows i }, false)),
            final) ∧
        final.map skill_frame = skills.map skill_frame := by
  intro N
  induction N with
  | zero => intro nows skills s₀ _; exact ⟨skills, rfl, rfl⟩
  | succ n ih =>
    intro nows skills s₀ h
    obtain ⟨skills', h1, h2, h3⟩ := touch_first_similar_spec content θ (nows 0) skills s₀ h
    obtain ⟨final, h4, h5⟩ :=
      ih (fun i => nows (i + 1)) skills' { s₀ with updatedAt := nows 0 } h3
    refine ⟨final, ?_, h5.trans h2⟩
    have hadd : add_skill skills sectionArg content true θ
        language framework project_type (nows 0) =
        Except.ok ({ s₀ with updatedAt := nows 0 }, false, skills') := by
      rw [add_skill]
      simp only [if_true]
      rw [h1]
    rw [repeat_add, hadd]
    simp only [h4, skill_updatedAt_overwrite, List.range_succ_eq_map, List.map_cons,
      List.map_map, Function.comp]
    rfl

/-- C5: whenever the loaded collection contains a skill at or above the
similarity threshold, the deduplicating add returns the first such skill
with `isNew = false`, refreshing only its `updatedAt`; repeating the add N
times keeps returning that same skill (same id), never creates a skill,
and leaves every id, section, content, counter, `createdAt` and context
tag of the saved collection unchanged. -/
theorem c5_dedup_refreshes_only_updatedAt (skills : List Skill)
    (sectionArg content : String) (θ : ℚ)
    (language framework project_type : Option String) (nows : ℕ → String) (N : ℕ)
    (h : ∃ s ∈ skills, θ ≤ string_similarity s.content content) :
    ∃ s₀ final, find_similar_skill skills content θ = some s₀ ∧
      repeat_add sectionArg content θ language framework project_type nows N skills =
        some ((List.range N).map (fun i => ({ s₀ with updatedAt := nows i }, false)),
          final) ∧
      final.map skill_frame = skills.map skill_frame := by
  obtain ⟨s₀, h0⟩ := find_similar_of_exists content θ skills h
  obtain ⟨final, h1, h2⟩ :=
    repeat_add_spec sectionArg content θ language framework project_type N nows skills s₀ h0
  exact ⟨s₀, final, h0, h1, h2⟩

/-- C5 (witness): applying the theorem at a one-skill collection whose
content equals the added content (similarity 1 ≥ 0.85), repeated twice. -/
theorem c5_dedup_refreshes_only_updatedAt_witness :
    (∃ s ∈ [Skill.mk "success-00001" "success" "abc" 0 0 0 "t0" "t0" none none none],
      (85 : ℚ) / 100 ≤ string_similarity s.content "abc") ∧
    (∃ s₀ final,
      find_similar_skill
          [Skill.mk "success-00001" "success" "abc" 0 0 0 "t0" "t0" none none none]
          "abc" ((85 : ℚ) / 100) = some s₀ ∧
      repeat_add "success" "abc" ((85 : ℚ) / 100) none none none (fun _ => "t1") 2
          [Skill.mk "success-00001" "success" "abc" 0 0 0 "t0" "t0" none none none] =
        some ((List.range 2).map
          (fun i => ({ s₀ with updatedAt := (fun _ => "t1") i }, false)), final) ∧
      final.map skill_frame =
        [Skill.mk "success-00001" "success" "abc" 0 0 0 "t0" "t0" none none none].map
          skill_frame) := by
  have hsim : (85 : ℚ) / 100 ≤ string_similarity "abc" "abc" := by
    rw [show string_similarity "abc" "abc" = 2 * ((3 : ℕ) : ℚ) / ((6 : ℕ) : ℚ) from rfl]
    norm_num
  have hyp : ∃ s ∈ [Skill.mk "success-00001" "success" "abc" 0 0 0 "t0" "t0"
      none none none], (85 : ℚ) / 100 ≤ string_similarity s.content "abc" :=
    ⟨Skill.mk "success-00001" "success" "abc" 0 0 0 "t0" "t0" none none none,
     List.mem_cons_self _ _, hsim⟩
  exact ⟨hyp, c5_dedup_refreshes_only_updatedAt
    [Skill.mk "success-00001" "success" "abc" 0 0 0 "t0" "t0" none none none]
    "success" "abc" ((85 : ℚ) / 100) none none none (fun _ => "t1") 2 hyp⟩

/-! ## Claim C7

The counterexample to symmetry and the amended properties (range,
case-insensitivity, reflexivity) of the similarity matcher. -/

/-- Row invariant of the scan: every `j2len` entry `(j, v)` lies in the
window (`blo ≤ j`) and its run length `v` fits between the window's left
edges and the current step (`v + blo ≤ j + 1`, `v + alo ≤ m`). -/
def RowInv (alo blo m : ℕ) (row : List (ℕ × ℕ)) : Prop :=
  ∀ e ∈ row, blo ≤ e.1 ∧ e.2 + blo ≤ e.1 + 1 ∧ e.2 + alo ≤ m

/-- Block invariant: the candidate block lies inside the window. -/
def BlockInv (alo ahi blo bhi : ℕ) (mb : MatchBlock) : Prop :=
  alo ≤ mb.bi ∧ blo ≤ mb.bj ∧ mb.bi + mb.size ≤ ahi ∧ mb.bj + mb.size ≤ bhi

/-- The run length computed at column `j` of row `i` respects the window
bounds recorded in the previous row. -/
lemma scan_step_len_le (alo blo i j : ℕ) (row : List (ℕ × ℕ))
    (hrow : RowInv alo blo i row) (hai : alo ≤ i) (hbj : blo ≤ j) :
    scan_step_len row j + blo ≤ j + 1 ∧ scan_step_len row j + alo ≤ i + 1 := by
  rw [scan_step_len]
  by_cases hj0 : j = 0
  · subst hj0
    simp
    omega
  · rw [if_neg hj0]
    cases hlk : row.lookup (j - 1) with
    | none => simp only [hlk, Option.getD_none]; omega
    | some v =>
      obtain ⟨h1, h2, h3⟩ := hrow _ (lookup_mem hlk)
      simp only [hlk, Option.getD_some]
      omega

/-- The inner scan preserves the row and block invariants. -/
lemma innerScan_inv (alo ahi blo bhi i : ℕ) (hai : alo ≤ i) (hia : i < ahi) :
    ∀ (js : List ℕ) (j2len newRow : List (ℕ × ℕ)) (best : MatchBlock),
      RowInv alo blo i j2len → RowInv alo blo (i + 1) newRow →
      BlockInv alo ahi blo bhi best →
      RowInv alo blo (i + 1) (innerScan blo bhi i js j2len newRow best).1 ∧
      BlockInv alo ahi blo bhi (innerScan blo bhi i js j2len newRow best).2 := by
  intro js
  induction js with
  | nil => intro j2len newRow best _ h2 h3; exact ⟨h2, h3⟩
  | cons j js ih =>
    intro j2len newRow best h1 h2 h3
    rw [innerScan]
    by_cases hb1 : j < blo
    · rw [if_pos hb1]; exact ih _ _ _ h1 h2 h3
    · rw [if_neg hb1]
      by_cases hb2 : bhi ≤ j
      · rw [if_pos hb2]; exact ⟨h2, h3⟩
      · rw [if_neg hb2]
        obtain ⟨hk1, hk2⟩ := scan_step_len_le alo blo i j j2len h1 hai (by omega)
        apply ih
        · exact h1
        · intro e he
          rcases List.mem_cons.mp he with he | he
          · subst he
            exact ⟨by omega, by omega, by omega⟩
          · exact h2 e he
        · by_cases hbest : best.size < scan_step_len j2len j
          · rw [if_pos hbest]
            exact ⟨show alo ≤ i + 1 - scan_step_len j2len j by omega,
                   show blo ≤ j + 1 - scan_step_len j2len j by omega,
                   show i + 1 - scan_step_len j2len j + scan_step_len j2len j ≤ ahi by omega,
                   show j + 1 - scan_step_len j2len j + scan_step_len j2len j ≤ bhi by omega⟩
          · rw [if_neg hbest]; exact h3

/-- The outer scan preserves the block invariant. -/
lemma outerScan_inv (a b : List Char) (alo ahi blo bhi : ℕ) :
    ∀ (len i : ℕ) (j2len : List (ℕ × ℕ)) (best : MatchBlock),
      alo ≤ i → i + len ≤ ahi →
      RowInv alo blo i j2len → BlockInv alo ahi blo bhi best →
      BlockInv alo ahi blo bhi (outerScan a b blo bhi (List.range' i len) j2len best) := by
  intro len
  induction len with
  | zero => intro i j2len best _ _ _ h4; exact h4
  | succ n ih =>
    intro i j2len best h1 h2 h3 h4
    rw [List.range'_succ i n 1, outerScan]
    obtain ⟨hrow', hblk'⟩ :=
      innerScan_inv alo ahi blo bhi i h1 (by omega) (b2j b (a.getD i ' '))
        j2len [] best h3 (fun e he => absurd he (List.not_mem_nil e)) h4
    exact ih (i + 1) _ _ (by omega) (by omega) hrow' hblk'

/-- The left extension loop preserves the block invariant. -/
lemma extendLeft_inv (a b : List Char) (alo ahi blo bhi : ℕ) :
    ∀ (fuel : ℕ) (best : MatchBlock), BlockInv alo ahi blo bhi best →
      BlockInv alo ahi blo bhi (extendLeft a b alo blo fuel best) := by
  intro fuel
  induction fuel with
  | zero => intro best h; exact h
  | succ n ih =>
    intro best h
    rw [extendLeft]
    split
    · next hcond =>
      apply ih
      obtain ⟨h1, h2, h3, h4⟩ := h
      obtain ⟨hc1, hc2, -⟩ := hcond
      exact ⟨show alo ≤ best.bi - 1 by omega, show blo ≤ best.bj - 1 by omega,
             show best.bi - 1 + (best.size + 1) ≤ ahi by omega,
             show best.bj - 1 + (best.size + 1) ≤ bhi by omega⟩
    · exact h

/-- The right extension loop preserves the block invariant. -/
lemma extendRight_inv (a b : List Char) (alo ahi blo bhi : ℕ) :
    ∀ (fuel : ℕ) (best : MatchBlock), BlockInv alo ahi blo bhi best →
      BlockInv alo ahi blo bhi (extendRight a b ahi bhi fuel best) := by
  intro fuel
  induction fuel with
  | zero => intro best h; exact h
  | succ n ih =>
    intro best h
    rw [extendRight]
    split
    · next hcond =>
      apply ih
      obtain ⟨hc1, hc2, -⟩ := hcond
      exact ⟨show alo ≤ best.bi from h.1, show blo ≤ best.bj from h.2.1,
             show best.bi + (best.size + 1) ≤ ahi by omega,
             show best.bj + (best.size + 1) ≤ bhi by omega⟩
    · exact h

/-- The block returned by `find_longest_match` lies inside the window. -/
lemma find_longest_match_inv (a b : List Char) (alo ahi blo bhi : ℕ)
    (h1 : alo ≤ ahi) (h2 : blo ≤ bhi) :
    BlockInv alo ahi blo bhi (find_longest_match a b alo ahi blo bhi) := by
  rw [find_longest_match]
  apply extendRight_inv
  apply extendLeft_inv
  exact outerScan_inv a b alo ahi blo bhi (ahi - alo) alo []
    (MatchBlock.mk alo blo 0) (le_refl alo) (by omega)
    (fun e he => absurd he (List.not_mem_nil e))
    ⟨le_refl alo, le_refl blo, show alo + 0 ≤ ahi by omega, show blo + 0 ≤ bhi by omega⟩

/-- The matching total never exceeds either window dimension. -/
lemma matchTotal_le (a b : List Char) :
    ∀ (fuel alo ahi blo bhi : ℕ), alo ≤ ahi → blo ≤ bhi →
      matchTotal a b fuel alo ahi blo bhi ≤ min (ahi - alo) (bhi - blo) := by
  intro fuel
  induction fuel with
  | zero => intro alo ahi blo bhi _ _; rw [matchTotal]; omega
  | succ n ih =>
    intro alo ahi blo bhi h1 h2
    rw [matchTotal]
    rcases hflm : find_longest_match a b alo ahi blo bhi with ⟨bi, bj, k⟩
    simp only [hflm]
    have hinv := find_longest_match_inv a b alo ahi blo bhi h1 h2
    rw [hflm] at hinv
    obtain ⟨g1, g2, g3, g4⟩ := hinv
    replace g1 : alo ≤ bi := g1
    replace g2 : blo ≤ bj := g2
    replace g3 : bi + k ≤ ahi := g3
    replace g4 : bj + k ≤ bhi := g4
    by_cases hk : k = 0
    · rw [if_pos hk]; omega
    · rw [if_neg hk]
      have A := ih alo bi blo bj (by omega) (by omega)
      have B := ih (bi + k) ahi (bj + k) bhi (by omega) (by omega)
      omega

/-- The ratio is non-negative. -/
lemma ratioOf_nonneg (a b : List Char) : 0 ≤ ratioOf a b := by
  rw [ratioOf]
  split
  · norm_num
  · apply div_nonneg
    · positivity
    · positivity

/-- The ratio never exceeds one: the matching total is at most the shorter
length, so `2 M ≤ T`. -/
lemma ratioOf_le_one (a b : List Char) : ratioOf a b ≤ 1 := by
  rw [ratioOf]
  split
  · norm_num
  · next h =>
    have hM := matchTotal_le a b (a.length + b.length + 1) 0 a.length 0 b.length
      (Nat.zero_le _) (Nat.zero_le _)
    have h2 : 2 * matchTotal a b (a.length + b.length + 1) 0 a.length 0 b.length ≤
        a.length + b.length := by omega
    rw [div_le_one (by exact_mod_cast Nat.pos_of_ne_zero h)]
    calc 2 * ((matchTotal a b (a.length + b.length + 1) 0 a.length 0 b.length : ℕ) : ℚ)
        = ((2 * matchTotal a b (a.length + b.length + 1) 0 a.length 0 b.length : ℕ) : ℚ) := by
          push_cast; ring
      _ ≤ ((a.length + b.length : ℕ) : ℚ) := by exact_mod_cast h2

/-- Lowering the characters of an already-lowered string changes nothing. -/
lemma lowerChars_toLower (s : String) : lowerChars (s.toLower) = lowerChars s := by
  rw [String.toLower, String.map_eq]
  show (s.data.map Char.toLower).map Char.toLower = s.data.map Char.toLower
  rw [List.map_map]
  apply List.map_congr_left
  intro x _
  exact char_toLower_idem x

/-- `string_similarity` only sees the lowered strings. -/
lemma string_similarity_lower (a b : String) :
    string_similarity a b = string_similarity a.toLower b.toLower := by
  rw [string_similarity, string_similarity, lowerChars_toLower, lowerChars_toLower]

/-- Reflexive scan, head phase: columns strictly left of the diagonal never
beat the running diagonal best and only add in-bounds entries. -/
lemma innerScan_refl_head (n i : ℕ) (row : List (ℕ × ℕ))
    (hrow : ∀ e ∈ row, e.2 ≤ e.1 + 1 ∧ e.2 ≤ i) (hin : i < n) :
    ∀ (jsA rest : List ℕ) (acc : List (ℕ × ℕ)),
      (∀ j ∈ jsA, j < i) →
      ∃ acc', innerScan 0 n i (jsA ++ rest) row acc (MatchBlock.mk 0 0 i) =
          innerScan 0 n i rest row acc' (MatchBlock.mk 0 0 i) ∧
        acc'.lookup i = acc.lookup i ∧
        (∀ e ∈ acc', (e.2 ≤ e.1 + 1 ∧ e.2 ≤ i + 1) ∨ e ∈ acc) := by
  intro jsA
  induction jsA with
  | nil => intro rest acc _; exact ⟨acc, rfl, rfl, fun e he => Or.inr he⟩
  | cons j jsA ih =>
    intro rest acc hlt
    have hji : j < i := hlt j (List.mem_cons_self _ _)
    rw [List.cons_append, innerScan, if_neg (Nat.not_lt_zero j),
      if_neg (show ¬ n ≤ j by omega)]
    have hk : scan_step_len row j ≤ j + 1 := by
      rw [scan_step_len]
      by_cases hj0 : j = 0
      · subst hj0; simp
      · rw [if_neg hj0]
        cases hlk : row.lookup (j - 1) with
        | none => simp
        | some v =>
          obtain ⟨hv1, hv2⟩ := hrow _ (lookup_mem hlk)
          simp only [Option.getD_some]
          omega
    rw [if_neg (show ¬ ((MatchBlock.mk 0 0 i).size < scan_step_len row j) by
      intro hcon
      replace hcon : i < scan_step_len row j := hcon
      omega)]
    obtain ⟨acc', ha1, ha2, ha3⟩ :=
      ih rest ((j, scan_step_len row j) :: acc)
        (fun x hx => hlt x (List.mem_cons_of_mem _ hx))
    refine ⟨acc', ha1, ?_, ?_⟩
    · rw [ha2, List.lookup,
        show (i == j) = false from beq_eq_false_iff_ne.mpr (by omega)]
    · intro e he
      rcases ha3 e he with h | h
      · exact Or.inl h
      · rcases List.mem_cons.mp h with h | h
        · subst h
          exact Or.inl ⟨show scan_step_len row j ≤ j + 1 from hk,
            show scan_step_len row j ≤ i + 1 by omega⟩
        · exact Or.inr h

/-- Reflexive scan, tail phase: columns strictly right of the diagonal
never beat the completed diagonal best `i + 1`. -/
lemma innerScan_refl_tail (n i : ℕ) (row : List (ℕ × ℕ))
    (hrow : ∀ e ∈ row, e.2 ≤ e.1 + 1 ∧ e.2 ≤ i) :
    ∀ (jsB : List ℕ) (acc : List (ℕ × ℕ)),
      (∀ j ∈ jsB, i < j ∧ j < n) →
      (∀ e ∈ acc, e.2 ≤ e.1 + 1 ∧ e.2 ≤ i + 1) →
      (innerScan 0 n i jsB row acc (MatchBlock.mk 0 0 (i + 1))).2 =
        MatchBlock.mk 0 0 (i + 1) ∧
      (∀ e ∈ (innerScan 0 n i jsB row acc (MatchBlock.mk 0 0 (i + 1))).1,
        e.2 ≤ e.1 + 1 ∧ e.2 ≤ i + 1) ∧
      (innerScan 0 n i jsB row acc (MatchBlock.mk 0 0 (i + 1))).1.lookup i =
        acc.lookup i := by
  intro jsB
  induction jsB with
  | nil => intro acc _ hacc; exact ⟨rfl, hacc, rfl⟩
  | cons j jsB ih =>
    intro acc hj hacc
    obtain ⟨hji, hjn⟩ := hj j (List.mem_cons_self _ _)
    rw [innerScan, if_neg (Nat.not_lt_zero j), if_neg (show ¬ n ≤ j by omega)]
    have hk1 : scan_step_len row j ≤ i + 1 := by
      rw [scan_step_len]
      rw [if_neg (show ¬ j = 0 by omega)]
      cases hlk : row.lookup (j - 1) with
      | none => simp
      | some v =>
        obtain ⟨hv1, hv2⟩ := hrow _ (lookup_mem hlk)
        simp only [Option.getD_some]
        omega
    rw [if_neg (show ¬ ((MatchBlock.mk 0 0 (i + 1)).size < scan_step_len row j) by
      intro hcon
      replace hcon : i + 1 < scan_step_len row j := hcon
      omega)]
    have haccok : ∀ e ∈ ((j, scan_step_len row j) :: acc),
        e.2 ≤ e.1 + 1 ∧ e.2 ≤ i + 1 := by
      intro e he
      rcases List.mem_cons.mp he with h | h
      · subst h
        exact ⟨show scan_step_len row j ≤ j + 1 by omega,
               show scan_step_len row j ≤ i + 1 from hk1⟩
      · exact hacc e h
    obtain ⟨t1, t2, t3⟩ :=
      ih ((j, scan_step_len row j) :: acc)
        (fun x hx => hj x (List.mem_cons_of_mem _ hx)) haccok
    refine ⟨t1, t2, ?_⟩
    rw [t3, List.lookup,
      show (i == j) = false from beq_eq_false_iff_ne.mpr (by omega)]

/-- Reflexive scan, one full row: starting from the diagonal best `i`, the
row ends with best `i + 1`, and the new row records the diagonal run
`i + 1` at key `i` with all entries in bounds. -/
lemma innerScan_refl (l : List Char) (i : ℕ) (hi : i < l.length)
    (row : List (ℕ × ℕ))
    (hrow : ∀ e ∈ row, e.2 ≤ e.1 + 1 ∧ e.2 ≤ i)
    (hdiag : 1 ≤ i → row.lookup (i - 1) = some i) :
    (innerScan 0 l.length i (b2j l (l.getD i ' ')) row [] (MatchBlock.mk 0 0 i)).2 =
      MatchBlock.mk 0 0 (i + 1) ∧
    (∀ e ∈ (innerScan 0 l.length i (b2j l (l.getD i ' ')) row []
        (MatchBlock.mk 0 0 i)).1, e.2 ≤ e.1 + 1 ∧ e.2 ≤ i + 1) ∧
    ((innerScan 0 l.length i (b2j l (l.getD i ' ')) row []
        (MatchBlock.mk 0 0 i)).1.lookup i = some (i + 1)) := by
  have hsplit : b2j l (l.getD i ' ') =
      ((List.range' 0 i).filter (fun j => l.getD j ' ' = l.getD i ' ')) ++
      i :: ((List.range' (i + 1) (l.length - i - 1)).filter
        (fun j => l.getD j ' ' = l.getD i ' ')) := by
    rw [b2j, List.range_eq_range']
    have e1 := List.range'_append 0 i (l.length - i) 1
    simp only [one_mul, zero_add] at e1
    rw [show l.length - i + i = l.length from by omega] at e1
    rw [← e1, show l.length - i = (l.length - i - 1) + 1 from by omega,
      List.range'_succ, List.filter_append, List.filter_cons, if_pos (by simp)]
    simp only [Nat.add_sub_cancel]
  rw [hsplit]
  obtain ⟨acc', ha1, ha2, ha3⟩ :=
    innerScan_refl_head l.length i row hrow hi
      ((List.range' 0 i).filter (fun j => l.getD j ' ' = l.getD i ' '))
      (i :: ((List.range' (i + 1) (l.length - i - 1)).filter
        (fun j => l.getD j ' ' = l.getD i ' '))) []
      (by
        intro j hj
        obtain ⟨hjr, -⟩ := List.mem_filter.mp hj
        have := List.mem_range'_1.mp hjr
        omega)
  rw [ha1]
  rw [innerScan, if_neg (Nat.not_lt_zero i), if_neg (show ¬ l.length ≤ i by omega)]
  have hki : scan_step_len row i = i + 1 := by
    rw [scan_step_len]
    by_cases hi0 : i = 0
    · subst hi0; simp
    · rw [if_neg hi0, hdiag (by omega)]
      rfl
  rw [hki]
  rw [if_pos (show (MatchBlock.mk 0 0 i).size < i + 1 from Nat.lt_succ_self i)]
  rw [show i + 1 - (i + 1) = 0 from Nat.sub_self _]
  have haccok : ∀ e ∈ ((i, i + 1) :: acc'), e.2 ≤ e.1 + 1 ∧ e.2 ≤ i + 1 := by
    intro e he
    rcases List.mem_cons.mp he with h | h
    · subst h; exact ⟨le_refl _, le_refl _⟩
    · rcases ha3 e h with h' | h'
      · exact h'
      · exact absurd h' (List.not_mem_nil e)
  obtain ⟨t1, t2, t3⟩ :=
    innerScan_refl_tail l.length i row hrow
      ((List.range' (i + 1) (l.length - i - 1)).filter
        (fun j => l.getD j ' ' = l.getD i ' '))
      ((i, i + 1) :: acc')
      (by
        intro j hj
        obtain ⟨hjr, -⟩ := List.mem_filter.mp hj
        have := List.mem_range'_1.mp hjr
        omega)
      haccok
  refine ⟨t1, t2, ?_⟩
  rw [t3, List.lookup, show (i == i) = true from beq_self_eq_true i]

/-- Reflexive outer scan: the diagonal best grows by one per row, ending at
the full length. -/
lemma outerScan_refl (l : List Char) :
    ∀ (len i : ℕ) (row : List (ℕ × ℕ)),
      i + len = l.length →
      (∀ e ∈ row, e.2 ≤ e.1 + 1 ∧ e.2 ≤ i) →
      (1 ≤ i → row.lookup (i - 1) = some i) →
      outerScan l l 0 l.length (List.range' i len) row (MatchBlock.mk 0 0 i) =
        MatchBlock.mk 0 0 l.length := by
  intro len
  induction len with
  | zero =>
    intro i row hlen _ _
    rw [show (i : ℕ) = l.length from by omega, List.range'_zero]
    rfl
  | succ m ih =>
    intro i row hlen hrow hdiag
    rw [List.range'_succ i m 1, outerScan]
    obtain ⟨r1, r2, r3⟩ := innerScan_refl l i (by omega) row hrow hdiag
    rw [r1]
    exact ih (i + 1) _ (by omega) r2
      (fun _ => by rw [show i + 1 - 1 = i from rfl]; exact r3)

/-- The left extension loop is a no-op when its guard fails. -/
lemma extendLeft_stuck (a b : List Char) (alo blo fuel : ℕ) (best : MatchBlock)
    (h : ¬ (alo < best.bi ∧ blo < best.bj ∧
      a.getD (best.bi - 1) ' ' = b.getD (best.bj - 1) ' ')) :
    extendLeft a b alo blo fuel best = best := by
  cases fuel with
  | zero => rfl
  | succ n => rw [extendLeft, if_neg h]

/-- The right extension loop is a no-op when its guard fails. -/
lemma extendRight_stuck (a b : List Char) (ahi bhi fuel : ℕ) (best : MatchBlock)
    (h : ¬ (best.bi + best.size < ahi ∧ best.bj + best.size < bhi ∧
      a.getD (best.bi + best.size) ' ' = b.getD (best.bj + best.size) ' ')) :
    extendRight a b ahi bhi fuel best = best := by
  cases fuel with
  | zero => rfl
  | succ n => rw [extendRight, if_neg h]

/-- On identical sequences with the full window, `find_longest_match`
returns the whole diagonal. -/
lemma find_longest_match_refl (l : List Char) :
    find_longest_match l l 0 l.length 0 l.length = MatchBlock.mk 0 0 l.length := by
  rw [find_longest_match, Nat.sub_zero]
  rw [outerScan_refl l l.length 0 [] (by omega)
    (fun e he => absurd he (List.not_mem_nil e))
    (fun hcon => absurd hcon (by omega))]
  rw [extendLeft_stuck l l 0 0 _ _ (by
    intro hcon
    replace hcon : (0 : ℕ) < 0 := hcon.1
    omega)]
  rw [extendRight_stuck l l l.length l.length _ _ (by
    intro hcon
    replace hcon : 0 + l.length < l.length := hcon.1
    omega)]

/-- The matching total over an empty window is zero. -/
lemma matchTotal_empty (a b : List Char) (fuel s t : ℕ) :
    matchTotal a b fuel s s t t = 0 := by
  cases fuel with
  | zero => rfl
  | succ n =>
    rw [matchTotal]
    have hflm : find_longest_match a b s s t t = MatchBlock.mk s t 0 := by
      rw [find_longest_match, Nat.sub_self, List.range'_zero]
      rw [extendLeft_stuck a b s t _ _ (by
        intro hcon
        replace hcon : s < s := hcon.1
        omega)]
      rw [extendRight_stuck a b s t _ _ (by
        intro hcon
        replace hcon : s + 0 < s := hcon.1
        omega)]
      rfl
    simp only [hflm]
    simp

/-- `ratio()` of a sequence against itself is 1. -/
lemma ratioOf_self (l : List Char) : ratioOf l l = 1 := by
  rw [ratioOf]
  by_cases h : l.length + l.length = 0
  · rw [if_pos h]
  · rw [if_neg h]
    have hmt : matchTotal l l (l.length + l.length + 1) 0 l.length 0 l.length =
        l.length := by
      rw [matchTotal]
      simp only [find_longest_match_refl]
      rw [if_neg (show ¬ l.length = 0 by omega)]
      simp only [zero_add]
      rw [matchTotal_empty, matchTotal_empty]
      omega
    rw [hmt]
    rw [div_eq_one_iff_eq (by exact_mod_cast h)]
    push_cast
    ring

/-- `string_similarity` is reflexive. -/
lemma string_similarity_self (a : String) : string_similarity a a = 1 :=
  ratioOf_self _

/-- C7 (counterexample): the similarity function is not symmetric.  On
`"aacdbb"` against `"bbeeaafcd"` the matcher finds the blocks "aa" and
"cd" (total 4), but with the arguments swapped the earliest maximal block
"bb" is chosen first and blocks the rest (total 2): 8/15 against 4/15. -/
theorem c7_similarity_not_symmetric :
    string_similarity "aacdbb" "bbeeaafcd" ≠ string_similarity "bbeeaafcd" "aacdbb" := by
  rw [show string_similarity "aacdbb" "bbeeaafcd" =
      2 * ((4 : ℕ) : ℚ) / ((15 : ℕ) : ℚ) from rfl,
    show string_similarity "bbeeaafcd" "aacdbb" =
      2 * ((2 : ℕ) : ℚ) / ((15 : ℕ) : ℚ) from rfl]
  norm_num

/-- C7 (amended): the similarity function maps every pair of strings into
`[0, 1]`, is case-insensitive (`similarity(a,b) =
similarity(lower(a), lower(b))`), and is reflexive (`similarity(a,a) = 1`);
it is not symmetric in general (see the counterexample), because the
underlying matcher's tie-breaking between maximal blocks depends on the
argument order. -/
theorem c7_similarity_amended (a b : String) :
    0 ≤ string_similarity a b ∧ string_similarity a b ≤ 1 ∧
    string_similarity a b = string_similarity a.toLower b.toLower ∧
    string_similarity a a = 1 :=
  ⟨ratioOf_nonneg _ _, ratioOf_le_one _ _, string_similarity_lower a b,
   string_similarity_self a⟩
